import Mathlib

/-!
Formal model of the pivot/splatter engine bridge (pivot-viewport-asset-organizer).

The definitions below are a shallow embedding of the Python sources:
the line-oriented command channel and process supervisor
(`src/pivot/engine.py`, `src/splatter/engine.py`), the sync state store
(`src/splatter/engine_state.py`), the change-detection handlers
(`src/pivot/handlers.py`, `src/splatter/__init__.py`), and the undo/redo
property reconciliation (`src/splatter/property_manager.py`).
Machine-level JSON is modelled as already-decoded field/value lists; byte
streams as lists of decoded lines; Python dicts as key/value lists with
unique-key update semantics; Python sets as finite sets of names.
-/

namespace PivotBridge

/-- Wire-level JSON values that appear in the bridge protocol: booleans,
integers, strings, null, and arrays of strings (the only array payloads the
modelled commands carry). -/
inductive RVal where
  | vB (b : Bool)
  | vN (n : Int)
  | vS (s : String)
  | vNull
  | vStrs (xs : List String)
deriving DecidableEq, Repr

/-- A decoded JSON object: a list of field-name/value pairs (a Python dict,
so keys are unique in well-formed values). -/
abbrev Resp := List (String × RVal)

/-- Python `d.get(k)` on a decoded object: value of the first matching field. -/
def getField (r : Resp) (k : String) : Option RVal :=
  match r with
  | [] => none
  | p :: rest => if p.1 = k then some p.2 else getField rest k

/-- Python `d.get(k, dflt)`. -/
def getFieldD (r : Resp) (k : String) (dflt : RVal) : RVal :=
  (getField r k).getD dflt

/-- Python `k in d` membership test on a decoded object. -/
def hasKey (r : Resp) (k : String) : Bool :=
  r.any (fun p => p.1 == k)

/-- Python truthiness of a wire value (`if not response.get("ok", False)`). -/
def truthy : RVal → Bool
  | .vB b => b
  | .vN n => n != 0
  | .vS s => s != ""
  | .vNull => false
  | .vStrs xs => !xs.isEmpty

/-- One line read from the engine's stdout by `readline().strip()`:
an empty read (stream closed / whitespace-only line), a line `json.loads`
rejects, or a decoded JSON object. -/
inductive RLine where
  | eofLine
  | junkLine
  | objLine (r : Resp)
deriving DecidableEq, Repr

/-- The two RuntimeError families `send_command` raises: the not-running
precondition failure, and the communication error wrapping everything the
read/write loop raises (empty read, malformed line, broken pipe). -/
inductive CommErr where
  | notRunning
  | comm
deriving DecidableEq, Repr

/-- The response-reading loop of `PivotEngine.send_command`
(`src/pivot/engine.py` 215-222, identical in `src/splatter/engine.py`
151-158): read lines until one contains key `ok`; an empty read raises; a
malformed line raises; an exhausted stream is a blocked `readline`
returning the empty string, hence also an empty read. Returns the result
and the number of lines consumed. -/
def readLoop : List RLine → Except CommErr Resp × Nat
  | [] => (.error .comm, 0)
  | .eofLine :: _ => (.error .comm, 1)
  | .junkLine :: _ => (.error .comm, 1)
  | .objLine r :: rest =>
      if hasKey r "ok" then (.ok r, 1)
      else
        let p := readLoop rest
        (p.1, p.2 + 1)

/-- Result of one blocking `send_command` call: the returned (or raised)
value, the serialized command lines written to stdin, and the number of
response lines consumed. -/
structure ChanResult where
  result : Except CommErr Resp
  written : List Resp
  consumed : Nat
deriving Repr

/-- `PivotEngine.send_command` (`src/pivot/engine.py` 193-225) and
`SplatterEngine.send_command` (`src/splatter/engine.py` 129-161): if the
channel is not connected it raises before any write or read; otherwise it
writes exactly one serialized line, flushes, and runs the read loop. -/
def sendCommand (running : Bool) (cmd : Resp) (stdout : List RLine) : ChanResult :=
  if running then
    let p := readLoop stdout
    ⟨p.1, [cmd], p.2⟩
  else
    ⟨.error .notRunning, [], 0⟩

/-- A stdout prefix of interim-progress lines: decoded objects lacking the
key `ok`. -/
def interimOnly (pre : List RLine) : Prop :=
  ∀ l ∈ pre, ∃ r0, l = RLine.objLine r0 ∧ hasKey r0 "ok" = false

lemma readLoop_skip (pre : List RLine) (h : interimOnly pre) (tail : List RLine) :
    readLoop (pre ++ tail) = ((readLoop tail).1, (readLoop tail).2 + pre.length) := by
  induction pre with
  | nil => simp
  | cons l rest ih =>
      obtain ⟨r0, rfl, hok⟩ := h l (List.mem_cons_self l rest)
      have hrest : interimOnly rest := fun x hx => h x (List.mem_cons_of_mem _ hx)
      simp [List.cons_append, readLoop, hok, ih hrest, Nat.add_assoc]

/-- C1. For every command sent through the blocking channel, `send_command`
writes exactly one serialized line (then flushes), and returns the first
subsequent response line that decodes to an object containing the key
`ok`, discarding every earlier `ok`-less line; it raises a communication
error if an empty read occurs before such a terminal line arrives; and on
a disconnected channel it fails before any write or read is attempted. -/
theorem sendCommand_spec (cmd : Resp) (pre : List RLine) (r : Resp) (rest : List RLine)
    (hpre : interimOnly pre) (hok : hasKey r "ok" = true) :
    sendCommand true cmd (pre ++ RLine.objLine r :: rest) =
      ⟨.ok r, [cmd], pre.length + 1⟩ ∧
    sendCommand true cmd (pre ++ RLine.eofLine :: rest) =
      ⟨.error .comm, [cmd], pre.length + 1⟩ ∧
    (∀ stdout, sendCommand false cmd stdout = ⟨.error .notRunning, [], 0⟩) := by
  refine ⟨?_, ?_, ?_⟩
  · simp [sendCommand, readLoop_skip pre hpre, readLoop, hok, Nat.add_comm]
  · simp [sendCommand, readLoop_skip pre hpre, readLoop, Nat.add_comm]
  · intro stdout
    simp [sendCommand]

/-- Concrete run of `sendCommand_spec`: one interim line is discarded, the
terminal line is returned, an empty read raises, and a disconnected
channel fails with no write. -/
theorem sendCommand_spec_witness :
    sendCommand true [("op", RVal.vS "ping")]
        ([RLine.objLine [("progress", RVal.vN 1)]] ++
          RLine.objLine [("ok", RVal.vB true)] :: []) =
      ⟨.ok [("ok", RVal.vB true)], [[("op", RVal.vS "ping")]], 2⟩ ∧
    sendCommand true [("op", RVal.vS "ping")]
        ([RLine.objLine [("progress", RVal.vN 1)]] ++ RLine.eofLine :: []) =
      ⟨.error .comm, [[("op", RVal.vS "ping")]], 2⟩ ∧
    (∀ stdout, sendCommand false [("op", RVal.vS "ping")] stdout =
      ⟨.error .notRunning, [], 0⟩) :=
  sendCommand_spec [("op", RVal.vS "ping")] [RLine.objLine [("progress", RVal.vN 1)]]
    [("ok", RVal.vB true)] []
    (by intro l hl; simp at hl; exact ⟨[("progress", RVal.vN 1)], hl, by decide⟩)
    (by decide)

/-- Command id constant `COMMAND_DROP_GROUPS` (`src/pivot/engine.py` 26,
`src/splatter/engine.py` 24). -/
def COMMAND_DROP_GROUPS : Int := 5

/-- The wire command `drop_groups` sends (`src/pivot/engine.py` 327-331). -/
def dropGroupsCmd (names : List String) : Resp :=
  [("id", RVal.vN COMMAND_DROP_GROUPS), ("op", RVal.vS "drop_groups"),
   ("group_names", RVal.vStrs names)]

/-- Integer read of `response.get("dropped_count", 0)`: the wire contract
types the count as a number, and the typed embedding maps any non-numeric
payload to the same default as an absent field. -/
def countOf (r : Resp) : Int :=
  match getField r "dropped_count" with
  | some (RVal.vN n) => n
  | some _ => 0
  | none => 0

/-- `PivotEngine.drop_groups` (`src/pivot/engine.py` 311-341) and
`SplatterEngine.drop_groups` (`src/splatter/engine.py` 247-277): an empty
name list short-circuits to 0 with no I/O; a stopped engine yields -1; a
raising round-trip or an `ok`-falsy reply yields -1; otherwise the
engine-reported `dropped_count` (default 0). Returns the count and the
command lines written. -/
def dropGroups (running : Bool) (names : List String) (stdout : List RLine) :
    Int × List Resp :=
  if names.isEmpty then (0, [])
  else if !running then (-1, [])
  else
    let res := sendCommand running (dropGroupsCmd names) stdout
    match res.result with
    | .error _ => (-1, res.written)
    | .ok r =>
        if truthy (getFieldD r "ok" (RVal.vB false)) then (countOf r, res.written)
        else (-1, res.written)

/-- C10. `drop_groups` never raises at its public boundary: it returns 0
for an empty list without I/O; -1 when the engine is stopped, the
round-trip raises, or the engine replies with a falsy `ok` (all without
touching any local group state, which `drop_groups` never mutates);
otherwise the engine-reported `dropped_count`, defaulting to 0 when the
field is absent. -/
theorem dropGroups_spec (names : List String) (stdout : List RLine)
    (hne : names ≠ []) :
    (∀ s running, dropGroups running [] s = (0, [])) ∧
    dropGroups false names stdout = (-1, []) ∧
    (∀ e, (readLoop stdout).1 = .error e →
      dropGroups true names stdout = (-1, [dropGroupsCmd names])) ∧
    (∀ r, (readLoop stdout).1 = .ok r →
      truthy (getFieldD r "ok" (RVal.vB false)) = false →
      dropGroups true names stdout = (-1, [dropGroupsCmd names])) ∧
    (∀ r n, (readLoop stdout).1 = .ok r →
      truthy (getFieldD r "ok" (RVal.vB false)) = true →
      getField r "dropped_count" = some (RVal.vN n) →
      dropGroups true names stdout = (n, [dropGroupsCmd names])) ∧
    (∀ r, (readLoop stdout).1 = .ok r →
      truthy (getFieldD r "ok" (RVal.vB false)) = true →
      getField r "dropped_count" = none →
      dropGroups true names stdout = (0, [dropGroupsCmd names])) := by
  have hne' : names.isEmpty = false := by
    cases names with
    | nil => exact absurd rfl hne
    | cons a l => rfl
  refine ⟨?_, ?_, ?_, ?_, ?_, ?_⟩
  · intro s running
    simp [dropGroups]
  · simp [dropGroups, hne']
  · intro e he
    simp [dropGroups, hne', sendCommand, he]
  · intro r hr hfalse
    simp [dropGroups, hne', sendCommand, hr, hfalse]
  · intro r n hr htrue hcount
    simp [dropGroups, hne', sendCommand, hr, htrue, countOf, hcount]
  · intro r hr htrue hcount
    simp [dropGroups, hne', sendCommand, hr, htrue, countOf, hcount]

/-- Concrete runs of `dropGroups_spec`: empty list, stopped engine, closed
stream, refused drop, reported count, and absent count field. -/
theorem dropGroups_spec_witness :
    dropGroups false ["G1"] [] = (-1, []) ∧
    dropGroups true ["G1"] [] = (-1, [dropGroupsCmd ["G1"]]) ∧
    dropGroups true ["G1"]
        [RLine.objLine [("ok", RVal.vB false), ("error", RVal.vS "bad")]] =
      (-1, [dropGroupsCmd ["G1"]]) ∧
    dropGroups true ["G1"]
        [RLine.objLine [("ok", RVal.vB true), ("dropped_count", RVal.vN 1)]] =
      (1, [dropGroupsCmd ["G1"]]) ∧
    dropGroups true ["G1"] [RLine.objLine [("ok", RVal.vB true)]] =
      (0, [dropGroupsCmd ["G1"]]) := by
  have h := dropGroups_spec ["G1"] [] (by decide)
  have h2 := dropGroups_spec ["G1"]
    [RLine.objLine [("ok", RVal.vB false), ("error", RVal.vS "bad")]] (by decide)
  have h3 := dropGroups_spec ["G1"]
    [RLine.objLine [("ok", RVal.vB true), ("dropped_count", RVal.vN 1)]] (by decide)
  have h4 := dropGroups_spec ["G1"] [RLine.objLine [("ok", RVal.vB true)]] (by decide)
  exact ⟨h.2.1,
    h.2.2.1 CommErr.comm rfl,
    h2.2.2.2.1 [("ok", RVal.vB false), ("error", RVal.vS "bad")] rfl (by decide),
    h3.2.2.2.2.1 [("ok", RVal.vB true), ("dropped_count", RVal.vN 1)] 1
      rfl (by decide) (by decide),
    h4.2.2.2.2.2 [("ok", RVal.vB true)] rfl (by decide) (by decide)⟩

/-- State of the engine supervisor: the `_is_running` liveness flag and the
`_process` handle (`src/pivot/engine.py` 103-105). Handles are opaque ids. -/
structure EngineProc where
  running : Bool
  proc : Option Nat
deriving DecidableEq, Repr

/-- Shutdown escalation steps `stop()` can take: the `__quit__` sentinel
write, `terminate()`, and `kill()`. -/
inductive StopAction where
  | quit
  | term
  | kill
deriving DecidableEq, Repr

/-- Outcome of the graceful-quit attempt inside `stop()`: the process exits
within the 2.0s grace wait; `TimeoutExpired` or `BrokenPipeError` is
raised; or some other exception escapes to the outer handler. -/
inductive QuitOutcome where
  | exited
  | timeoutOrPipe
  | raised
deriving DecidableEq, Repr

/-- Outcome of the 1.0s wait after `terminate()`. -/
inductive TermOutcome where
  | exited
  | timedOut
deriving DecidableEq, Repr

/-- Nondeterministic environment for one `stop()` run: whether `poll()`
reports the process already exited, and how the escalation waits resolve. -/
structure StopEnv where
  alreadyExited : Bool
  quit : QuitOutcome
  term : TermOutcome
deriving DecidableEq, Repr

/-- `PivotEngine.stop` (`src/pivot/engine.py` 150-187), identical in
`src/splatter/engine.py` 86-123: early return when not running or without
a handle; otherwise quit-sentinel, then terminate on timeout/broken pipe,
then kill on a second timeout; any other exception reaches the outer
handler which kills best-effort. Every non-early-return path ends by
clearing the handle and the liveness flag. Returns the new state and the
escalation actions taken. -/
def stop (s : EngineProc) (env : StopEnv) : EngineProc × List StopAction :=
  if s.running = false ∨ s.proc = none then (s, [])
  else
    let acts :=
      if env.alreadyExited then []
      else
        match env.quit with
        | .exited => [StopAction.quit]
        | .timeoutOrPipe =>
            match env.term with
            | .exited => [StopAction.quit, StopAction.term]
            | .timedOut => [StopAction.quit, StopAction.term, StopAction.kill]
        | .raised => [StopAction.quit, StopAction.kill]
    (⟨false, none⟩, acts)

/-- `PivotEngine.start` (`src/pivot/engine.py` 107-148): returns true at
once if already running; spawning yields a handle and sets the flag;
a missing binary or spawn failure clears both and returns false. -/
def start (s : EngineProc) (spawn : Option Nat) : EngineProc × Bool :=
  if s.running then (s, true)
  else
    match spawn with
    | some p => (⟨true, some p⟩, true)
    | none => (⟨false, none⟩, false)

/-- Supervisor states reachable from the freshly constructed engine
(`__init__`: no handle, not running) under any interleaving of `start` and
`stop`. -/
inductive Reach : EngineProc → Prop where
  | init : Reach ⟨false, none⟩
  | stepStart (s : EngineProc) (spawn : Option Nat) : Reach s → Reach (start s spawn).1
  | stepStop (s : EngineProc) (env : StopEnv) : Reach s → Reach (stop s env).1

lemma reach_inv (s : EngineProc) (h : Reach s) :
    s = ⟨false, none⟩ ∨ ∃ p, s = ⟨true, some p⟩ := by
  induction h with
  | init => exact Or.inl rfl
  | stepStart s0 spawn _ ih =>
      rcases ih with h0 | ⟨p, h0⟩ <;> subst h0
      · cases spawn with
        | none => exact Or.inl rfl
        | some p => exact Or.inr ⟨p, rfl⟩
      · exact Or.inr ⟨p, rfl⟩
  | stepStop s0 env _ ih =>
      rcases ih with h0 | ⟨p, h0⟩ <;> subst h0
      · exact Or.inl rfl
      · exact Or.inl (by simp [stop])

/-- C8. On every reachable supervisor state, `stop()` is an idempotent
no-op when the engine is not running; after any `stop()` call returns —
whichever escalation step was reached — the handle is cleared and the
liveness flag is false; and a second consecutive `stop()` performs no
shutdown escalation and leaves the state unchanged. -/
theorem stop_spec (s : EngineProc) (h : Reach s) (env env2 : StopEnv) :
    (s.running = false → stop s env = (s, [])) ∧
    ((stop s env).1.running = false ∧ (stop s env).1.proc = none) ∧
    stop (stop s env).1 env2 = ((stop s env).1, []) := by
  rcases reach_inv s h with h0 | ⟨p, h0⟩ <;> subst h0
  · exact ⟨fun _ => by simp [stop], ⟨rfl, rfl⟩, by simp [stop]⟩
  · refine ⟨fun hc => by simp at hc, ?_, ?_⟩
    · constructor <;> simp [stop]
    · simp [stop]

/-- Concrete run of `stop_spec` on the started engine: stop clears the
state through the kill path and a second stop is a no-op. -/
theorem stop_spec_witness :
    ((stop ⟨true, some 1⟩ ⟨false, .timeoutOrPipe, .timedOut⟩).1.running = false ∧
      (stop ⟨true, some 1⟩ ⟨false, .timeoutOrPipe, .timedOut⟩).1.proc = none) ∧
    stop (stop ⟨true, some 1⟩ ⟨false, .timeoutOrPipe, .timedOut⟩).1
        ⟨false, .exited, .exited⟩ =
      ((stop ⟨true, some 1⟩ ⟨false, .timeoutOrPipe, .timedOut⟩).1, []) :=
  let hreach : Reach ⟨true, some 1⟩ := Reach.stepStart ⟨false, none⟩ (some 1) Reach.init
  let h := stop_spec ⟨true, some 1⟩ hreach ⟨false, .timeoutOrPipe, .timedOut⟩
    ⟨false, .exited, .exited⟩
  ⟨h.2.1, h.2.2⟩

/-- Python dict lookup `d.get(k)` on a key/value list. -/
def getK {α : Type} (l : List (String × α)) (k : String) : Option α :=
  match l with
  | [] => none
  | p :: rest => if p.1 = k then some p.2 else getK rest k

/-- Python dict assignment `d[k] = v`: keys stay unique. -/
def putK {α : Type} (l : List (String × α)) (k : String) (v : α) : List (String × α) :=
  (k, v) :: l.filter (fun p => p.1 != k)

/-- Python `d.pop(k, None)`. -/
def delK {α : Type} (l : List (String × α)) (k : String) : List (String × α) :=
  l.filter (fun p => p.1 != k)

lemma getK_filter_ne {α : Type} (l : List (String × α)) (k k' : String) (h : k ≠ k') :
    getK (l.filter (fun p => p.1 != k)) k' = getK l k' := by
  induction l with
  | nil => rfl
  | cons p rest ih =>
      by_cases hp : p.1 = k
      · have hp' : p.1 ≠ k' := fun hh => h (hp.symm.trans hh)
        simp [List.filter_cons, hp, getK, hp', ih, h]
      · by_cases hpk : p.1 = k'
        · simp [List.filter_cons, hp, getK, hpk, Ne.symm h]
        · simp [List.filter_cons, hp, getK, hpk, ih]

lemma getK_filter_self {α : Type} (l : List (String × α)) (k : String) :
    getK (l.filter (fun p => p.1 != k)) k = none := by
  induction l with
  | nil => rfl
  | cons p rest ih =>
      by_cases hp : p.1 = k
      · simp [List.filter_cons, hp, ih]
      · simp [List.filter_cons, hp, getK, ih]

lemma getK_putK {α : Type} (l : List (String × α)) (k k' : String) (v : α) :
    getK (putK l k v) k' = if k = k' then some v else getK l k' := by
  by_cases h : k = k'
  · subst h
    simp [putK, getK]
  · simp [putK, getK, h, getK_filter_ne l k k' h]

lemma getK_delK {α : Type} (l : List (String × α)) (k k' : String) :
    getK (delK l k) k' = if k = k' then none else getK l k' := by
  by_cases h : k = k'
  · subst h
    simp [delK, getK_filter_self]
  · simp [delK, h, getK_filter_ne l k k' h]

/-- The sync state store (`src/splatter/engine_state.py` 12-15): the
engine-confirmed group membership snapshot and the unsynced (dirty) group
set. -/
structure SyncStore where
  snapshot : List (String × Finset String)
  unsynced : Finset String
deriving DecidableEq

/-- `engine_state.drop_groups_from_snapshot`
(`src/splatter/engine_state.py` 80-84): pop each name from the snapshot
and discard it from the unsynced set. -/
def dropFromSnapshot (st : SyncStore) (names : List String) : SyncStore :=
  names.foldl (fun st n => ⟨delK st.snapshot n, st.unsynced.erase n⟩) st

/-- One key write of the merge loop in `update_group_membership_snapshot`
(`src/splatter/engine_state.py` 51-54): overwrite the snapshot entry and
discard the group from the unsynced set. -/
def mergeWrite (st : SyncStore) (p : String × Finset String) : SyncStore :=
  ⟨putK st.snapshot p.1 p.2, st.unsynced.erase p.1⟩

/-- `engine_state.update_group_membership_snapshot`
(`src/splatter/engine_state.py` 37-54): in replace mode, first drop every
tracked key (cross-cleanup) and clear the snapshot; then write each
key of the update in order. -/
def updateSnapshot (st : SyncStore) (upd : List (String × Finset String))
    (replace : Bool) : SyncStore :=
  let st1 :=
    if replace then
      let st' := dropFromSnapshot st (st.snapshot.map Prod.fst)
      ⟨[], st'.unsynced⟩
    else st
  upd.foldl mergeWrite st1

/-- A sequence of merge-mode (`replace=False`) snapshot updates. -/
def applyMergeSeq (st : SyncStore) (parts : List (List (String × Finset String))) :
    SyncStore :=
  parts.foldl (fun st p => updateSnapshot st p false) st

/-- The last member set written for key `k` over a flat write sequence
(later writes win). -/
def lastWrite (writes : List (String × Finset String)) (k : String) :
    Option (Finset String) :=
  match writes with
  | [] => none
  | p :: rest =>
      match lastWrite rest k with
      | some v => some v
      | none => if p.1 = k then some p.2 else none

lemma updateSnapshot_merge (st : SyncStore) (upd : List (String × Finset String)) :
    updateSnapshot st upd false = upd.foldl mergeWrite st := by
  simp [updateSnapshot]

lemma applyMergeSeq_flatten (st : SyncStore)
    (parts : List (List (String × Finset String))) :
    applyMergeSeq st parts = parts.flatten.foldl mergeWrite st := by
  induction parts generalizing st with
  | nil => simp [applyMergeSeq]
  | cons p rest ih =>
      simp only [applyMergeSeq, List.foldl_cons, List.flatten_cons, List.foldl_append]
      rw [updateSnapshot_merge]
      exact ih _

lemma mergeFold_getK (st : SyncStore) (ws : List (String × Finset String)) (k : String) :
    getK (ws.foldl mergeWrite st).snapshot k =
      match lastWrite ws k with
      | some v => some v
      | none => getK st.snapshot k := by
  induction ws generalizing st with
  | nil => simp [lastWrite]
  | cons p rest ih =>
      simp only [List.foldl_cons, ih, lastWrite]
      cases hlast : lastWrite rest k with
      | some v => simp
      | none =>
          simp only [mergeWrite, getK_putK]
          by_cases hp : p.1 = k <;> simp [hp]

lemma mergeFold_unsynced_subset (st : SyncStore) (ws : List (String × Finset String)) :
    (ws.foldl mergeWrite st).unsynced ⊆ st.unsynced := by
  induction ws generalizing st with
  | nil => exact fun x hx => hx
  | cons p rest ih =>
      intro x hx
      exact (st.unsynced.erase_subset p.1) (ih (mergeWrite st p) hx)

lemma mergeFold_unsynced_cleared (st : SyncStore) (ws : List (String × Finset String))
    (k : String) (hk : k ∈ ws.map Prod.fst) :
    k ∉ (ws.foldl mergeWrite st).unsynced := by
  induction ws generalizing st with
  | nil => simp at hk
  | cons p rest ih =>
      simp only [List.map_cons, List.mem_cons] at hk
      rcases hk with hk | hk
      · subst hk
        intro hmem
        have := mergeFold_unsynced_subset (mergeWrite st p) rest hmem
        simp [mergeWrite] at this
      · exact ih (mergeWrite st p) hk


/-- C3. For every sequence of merge-mode
`update_group_membership_snapshot(partial, replace=False)` calls starting
from any store state, the final snapshot maps each key to the last member
set written for that key, keys never written keep their prior value, and
every key appearing in any applied update is removed from the
unsynced-groups set. -/
theorem updateSnapshot_merge_seq (st : SyncStore)
    (parts : List (List (String × Finset String))) (k : String) :
    (getK (applyMergeSeq st parts).snapshot k =
      match lastWrite parts.flatten k with
      | some v => some v
      | none => getK st.snapshot k) ∧
    (k ∈ parts.flatten.map Prod.fst → k ∉ (applyMergeSeq st parts).unsynced) := by
  rw [applyMergeSeq_flatten]
  exact ⟨mergeFold_getK st parts.flatten k,
    fun hk => mergeFold_unsynced_cleared st parts.flatten k hk⟩

/-- Concrete run of `updateSnapshot_merge_seq`: two merge updates; the
last write for "G1" wins, the untouched key "K" keeps its prior value, and
both written keys leave the dirty set. -/
theorem updateSnapshot_merge_seq_witness :
    (getK (applyMergeSeq ⟨[("K", {"X"})], {"G1", "G2", "K"}⟩
        [[("G1", {"A"})], [("G1", {"A", "B"}), ("G2", ∅)]]).snapshot "G1" =
      some {"A", "B"}) ∧
    (getK (applyMergeSeq ⟨[("K", {"X"})], {"G1", "G2", "K"}⟩
        [[("G1", {"A"})], [("G1", {"A", "B"}), ("G2", ∅)]]).snapshot "K" =
      some {"X"}) ∧
    "G1" ∉ (applyMergeSeq ⟨[("K", {"X"})], {"G1", "G2", "K"}⟩
        [[("G1", {"A"})], [("G1", {"A", "B"}), ("G2", ∅)]]).unsynced := by
  have h1 := updateSnapshot_merge_seq ⟨[("K", {"X"})], {"G1", "G2", "K"}⟩
    [[("G1", {"A"})], [("G1", {"A", "B"}), ("G2", ∅)]] "G1"
  have h2 := updateSnapshot_merge_seq ⟨[("K", {"X"})], {"G1", "G2", "K"}⟩
    [[("G1", {"A"})], [("G1", {"A", "B"}), ("G2", ∅)]] "K"
  refine ⟨?_, ?_, h1.2 (by decide)⟩
  · rw [h1.1]
    decide
  · rw [h2.1]
    decide

/-- `engine_state.flag_group_unsynced` (`src/splatter/engine_state.py`
91-94), the dirty-set effect of the group registry's `set_group_unsynced`:
add the name to the unsynced set, ignoring the empty name. -/
def flagUnsynced (dirty : Finset String) (g : String) : Finset String :=
  if g = "" then dirty else insert g dirty

lemma mem_flagUnsynced (dirty : Finset String) (g a : String) :
    a ∈ flagUnsynced dirty g ↔ a ∈ dirty ∨ (g ≠ "" ∧ a = g) := by
  by_cases hg : g = ""
  · simp [flagUnsynced, hg]
  · simp only [flagUnsynced, hg, if_false, Finset.mem_insert]
    constructor
    · rintro (h | h)
      · exact Or.inr ⟨hg, h⟩
      · exact Or.inl h
    · rintro (h | ⟨_, h⟩)
      · exact Or.inr h
      · exact Or.inl h

/-- One group comparison of
`pivot/handlers.detect_collection_hierarchy_changes`
(`src/pivot/handlers.py` 44-47): flag the group dirty when the expected
member set differs from the live membership (empty-set default). -/
def hierStep (current : List (String × Finset String)) (d : Finset String)
    (p : String × Finset String) : Finset String :=
  if p.2 ≠ (getK current p.1).getD ∅ then flagUnsynced d p.1 else d

/-- `pivot/handlers.detect_collection_hierarchy_changes`
(`src/pivot/handlers.py` 38-47, identical in `src/splatter/handlers.py`
32-41): run the comparison over every group of the engine snapshot. -/
def detectHierarchyChanges (expected current : List (String × Finset String))
    (dirty : Finset String) : Finset String :=
  expected.foldl (hierStep current) dirty

lemma mem_hierStep (current : List (String × Finset String)) (d : Finset String)
    (p : String × Finset String) (a : String) :
    a ∈ hierStep current d p ↔
      a ∈ d ∨ (p.1 ≠ "" ∧ a = p.1 ∧ p.2 ≠ (getK current p.1).getD ∅) := by
  by_cases hne : p.2 ≠ (getK current p.1).getD ∅
  · rw [hierStep, if_pos hne, mem_flagUnsynced]
    constructor
    · rintro (h | ⟨h1, h2⟩)
      · exact Or.inl h
      · exact Or.inr ⟨h1, h2, hne⟩
    · rintro (h | ⟨h1, h2, _⟩)
      · exact Or.inl h
      · exact Or.inr ⟨h1, h2⟩
  · rw [hierStep, if_neg hne]
    constructor
    · exact Or.inl
    · rintro (h | ⟨_, _, h3⟩)
      · exact h
      · exact absurd h3 hne

lemma mem_detectHierarchyChanges (expected current : List (String × Finset String))
    (dirty : Finset String) (a : String) :
    a ∈ detectHierarchyChanges expected current dirty ↔
      a ∈ dirty ∨
        ∃ p ∈ expected, p.1 ≠ "" ∧ a = p.1 ∧ p.2 ≠ (getK current p.1).getD ∅ := by
  induction expected generalizing dirty with
  | nil => simp [detectHierarchyChanges]
  | cons p rest ih =>
      show a ∈ rest.foldl (hierStep current) (hierStep current dirty p) ↔ _
      rw [show rest.foldl (hierStep current) (hierStep current dirty p) =
        detectHierarchyChanges rest current (hierStep current dirty p) from rfl,
        ih, mem_hierStep]
      constructor
      · rintro ((h | ⟨h1, h2, h3⟩) | ⟨q, hq, hterm⟩)
        · exact Or.inl h
        · exact Or.inr ⟨p, List.mem_cons_self p rest, h1, h2, h3⟩
        · exact Or.inr ⟨q, List.mem_cons_of_mem p hq, hterm⟩
      · rintro (h | ⟨q, hq, hterm⟩)
        · exact Or.inl (Or.inl h)
        · rcases List.mem_cons.mp hq with rfl | hq'
          · exact Or.inl (Or.inr hterm)
          · exact Or.inr ⟨q, hq', hterm⟩

/-- One group of the hierarchy pass of
`splatter/__init__.on_depsgraph_update_fast` (`src/splatter/__init__.py`
85-112): empty names are skipped; a group absent from the engine snapshot
is flagged when its live membership is nonempty (Python set truthiness);
a tracked group is flagged exactly on membership inequality. (The
scale-cache recording of that pass touches no group state and is modelled
with the mesh trigger.) -/
def fastStep (expected current : List (String × Finset String))
    (d : Finset String) (g : String) : Finset String :=
  if g = "" then d
  else
    match getK expected g with
    | none => if (getK current g).getD ∅ ≠ ∅ then flagUnsynced d g else d
    | some e => if e = (getK current g).getD ∅ then d else flagUnsynced d g

/-- Hierarchy pass of `on_depsgraph_update_fast`
(`src/splatter/__init__.py` 81-112): iterate the union of snapshot and
live group names (per-group effects are order-independent, so the Python
set iteration is fixed to a deduplicated list). -/
def fastHierarchyPhase (expected current : List (String × Finset String))
    (dirty : Finset String) : Finset String :=
  ((expected.map Prod.fst ++ current.map Prod.fst).dedup).foldl
    (fastStep expected current) dirty

lemma mem_fastStep (expected current : List (String × Finset String))
    (d : Finset String) (g a : String) :
    a ∈ fastStep expected current d g ↔
      a ∈ d ∨ (g ≠ "" ∧ a = g ∧
        (match getK expected g with
         | none => (getK current g).getD ∅ ≠ ∅
         | some e => e ≠ (getK current g).getD ∅)) := by
  unfold fastStep
  by_cases hg : g = ""
  · rw [if_pos hg]
    simp [hg]
  · rw [if_neg hg]
    cases hexp : getK expected g with
    | none =>
        change (a ∈ if (getK current g).getD ∅ ≠ ∅ then flagUnsynced d g else d) ↔
          a ∈ d ∨ g ≠ "" ∧ a = g ∧ (getK current g).getD ∅ ≠ ∅
        by_cases hc : (getK current g).getD ∅ ≠ ∅
        · rw [if_pos hc, mem_flagUnsynced]
          constructor
          · rintro (h | ⟨_, h2⟩)
            · exact Or.inl h
            · exact Or.inr ⟨hg, h2, hc⟩
          · rintro (h | ⟨_, h2, _⟩)
            · exact Or.inl h
            · exact Or.inr ⟨hg, h2⟩
        · rw [if_neg hc]
          constructor
          · exact Or.inl
          · rintro (h | ⟨_, _, h3⟩)
            · exact h
            · exact absurd h3 hc
    | some e =>
        change (a ∈ if e = (getK current g).getD ∅ then d else flagUnsynced d g) ↔
          a ∈ d ∨ g ≠ "" ∧ a = g ∧ e ≠ (getK current g).getD ∅
        by_cases hc : e = (getK current g).getD ∅
        · rw [if_pos hc]
          constructor
          · exact Or.inl
          · rintro (h | ⟨_, _, h3⟩)
            · exact h
            · exact absurd hc h3
        · rw [if_neg hc, mem_flagUnsynced]
          constructor
          · rintro (h | ⟨_, h2⟩)
            · exact Or.inl h
            · exact Or.inr ⟨hg, h2, hc⟩
          · rintro (h | ⟨_, h2, _⟩)
            · exact Or.inl h
            · exact Or.inr ⟨hg, h2⟩

lemma mem_fastFold (expected current : List (String × Finset String))
    (gs : List String) (dirty : Finset String) (a : String) :
    a ∈ gs.foldl (fastStep expected current) dirty ↔
      a ∈ dirty ∨ (a ∈ gs ∧ a ≠ "" ∧
        (match getK expected a with
         | none => (getK current a).getD ∅ ≠ ∅
         | some e => e ≠ (getK current a).getD ∅)) := by
  induction gs generalizing dirty with
  | nil => simp
  | cons g rest ih =>
      simp only [List.foldl_cons, ih, mem_fastStep, List.mem_cons]
      constructor
      · rintro ((h | ⟨h1, h2, h3⟩) | ⟨h1, h2, h3⟩)
        · exact Or.inl h
        · exact Or.inr ⟨Or.inl h2, h2 ▸ h1, h2 ▸ h3⟩
        · exact Or.inr ⟨Or.inr h1, h2, h3⟩
      · rintro (h | ⟨h1 | h1, h2, h3⟩)
        · exact Or.inl (Or.inl h)
        · exact Or.inl (Or.inr ⟨h1 ▸ h2, h1, h1 ▸ h3⟩)
        · exact Or.inr ⟨h1, h2, h3⟩

lemma getK_eq_none_iff {α : Type} (l : List (String × α)) (k : String) :
    getK l k = none ↔ ∀ p ∈ l, p.1 ≠ k := by
  induction l with
  | nil => simp [getK]
  | cons p rest ih =>
      by_cases hp : p.1 = k
      · simp [getK, hp]
      · simp [getK, hp, ih]

lemma getK_isSome_mem_keys {α : Type} (l : List (String × α)) (k : String) (v : α)
    (h : getK l k = some v) : k ∈ l.map Prod.fst := by
  induction l with
  | nil => simp [getK] at h
  | cons p rest ih =>
      by_cases hp : p.1 = k
      · simp [hp]
      · simp only [getK, hp, if_false] at h
        simp [ih h]

lemma getK_of_mem_nodup {α : Type} (l : List (String × α)) (p : String × α)
    (hnd : (l.map Prod.fst).Nodup) (hp : p ∈ l) : getK l p.1 = some p.2 := by
  induction l with
  | nil => simp at hp
  | cons q rest ih =>
      simp only [List.map_cons, List.nodup_cons] at hnd
      rcases List.mem_cons.mp hp with rfl | hp'
      · simp [getK]
      · have hq : q.1 ≠ p.1 := by
          intro hh
          exact hnd.1 (hh ▸ List.mem_map_of_mem Prod.fst hp')
        simp [getK, hq, ih hnd.2 hp']

/-- C4 counterexample. A group present in the live scene ("G1" with live
member "A") but absent from the engine snapshot IS flagged dirty by the
hierarchy pass of `on_depsgraph_update_fast` (one of the claim's cited
tick detectors), contradicting the claim that such a group is never
flagged by the hierarchy-drift trigger; pivot's
`detect_collection_hierarchy_changes` indeed leaves it unflagged. -/
theorem detectHierarchy_counterexample :
    "G1" ∈ fastHierarchyPhase [] [("G1", {"A"})] ∅ ∧
    "G1" ∉ detectHierarchyChanges [] [("G1", {"A"})] ∅ := by
  decide

/-- C4 amended. On each change-detection tick, for every group of the
stored engine snapshot: live-set inequality flags the group dirty and
equality does not; a live group absent from the snapshot is never flagged
by `detect_collection_hierarchy_changes`, while the hierarchy pass of
`on_depsgraph_update_fast` flags such a group exactly when its live
membership is nonempty. -/
theorem detectHierarchy_amended (expected current : List (String × Finset String))
    (dirty : Finset String) (g : String) (e ms : Finset String) (hg : g ≠ "") :
    ((g, e) ∈ expected → e ≠ (getK current g).getD ∅ →
      g ∈ detectHierarchyChanges expected current dirty) ∧
    ((expected.map Prod.fst).Nodup → getK expected g = some e →
      e = (getK current g).getD ∅ → g ∉ dirty →
      g ∉ detectHierarchyChanges expected current dirty) ∧
    (getK expected g = none → g ∉ dirty →
      g ∉ detectHierarchyChanges expected current dirty) ∧
    (getK expected g = none → getK current g = some ms → ms ≠ ∅ →
      g ∈ fastHierarchyPhase expected current dirty) := by
  refine ⟨?_, ?_, ?_, ?_⟩
  · intro hmem hne
    rw [mem_detectHierarchyChanges]
    exact Or.inr ⟨(g, e), hmem, hg, rfl, hne⟩
  · intro hnd hget heq hd
    rw [mem_detectHierarchyChanges]
    rintro (h | ⟨q, hq, _, hqa, hqc⟩)
    · exact hd h
    · have hqk : getK expected q.1 = some q.2 := getK_of_mem_nodup expected q hnd hq
      rw [← hqa, hget] at hqk
      rw [← hqa] at hqc
      exact hqc ((Option.some_injective _ hqk) ▸ heq)
  · intro hnone hd
    rw [mem_detectHierarchyChanges]
    rintro (h | ⟨q, hq, _, hqa, _⟩)
    · exact hd h
    · exact (getK_eq_none_iff expected g).mp hnone q hq hqa.symm
  · intro hnone hcur hne
    rw [fastHierarchyPhase, mem_fastFold]
    refine Or.inr ⟨?_, hg, ?_⟩
    · rw [List.mem_dedup, List.mem_append]
      exact Or.inr (getK_isSome_mem_keys current g ms hcur)
    · rw [hnone, hcur]
      simpa using hne

/-- Concrete runs of `detectHierarchy_amended`: snapshot "G1" = set A,B vs
live set A is flagged; vs live set A,B is not; snapshot-absent "G2" is not
flagged by the pivot detector but is flagged by the fast hierarchy pass. -/
theorem detectHierarchy_amended_witness :
    "G1" ∈ detectHierarchyChanges [("G1", {"A", "B"})] [("G1", {"A"})] ∅ ∧
    "G1" ∉ detectHierarchyChanges [("G1", {"A", "B"})] [("G1", {"A", "B"})] ∅ ∧
    "G2" ∉ detectHierarchyChanges [("G1", {"A", "B"})] [("G2", {"A"})] ∅ ∧
    "G2" ∈ fastHierarchyPhase [("G1", {"A", "B"})] [("G2", {"A"})] ∅ := by
  have h1 := detectHierarchy_amended [("G1", {"A", "B"})] [("G1", {"A"})] ∅
    "G1" {"A", "B"} ∅ (by decide)
  have h2 := detectHierarchy_amended [("G1", {"A", "B"})] [("G1", {"A", "B"})] ∅
    "G1" {"A", "B"} ∅ (by decide)
  have h3 := detectHierarchy_amended [("G1", {"A", "B"})] [("G2", {"A"})] ∅
    "G2" ∅ {"A"} (by decide)
  exact ⟨h1.1 (by simp) (by decide),
    h2.2.1 (by simp) (by decide) (by decide) (Finset.not_mem_empty _),
    h3.2.2.1 (by decide) (Finset.not_mem_empty _),
    h3.2.2.2 (by decide) (by decide) (by decide)⟩

/-- A selected mesh object as the mesh trigger sees it: its name and the
current scale/rotation component tuples (`tuple(obj.scale)`,
`tuple(obj.rotation_quaternion)`). Only exact tuple equality is ever
tested, so components are opaque integers. -/
structure MeshObj where
  name : String
  scale : Int × Int × Int
  rot : Int × Int × Int × Int
deriving DecidableEq, Repr

/-- One depsgraph update record: the `is_updated_geometry` and
`is_updated_transform` flags. -/
structure DepsgraphUpdate where
  geometryUpdated : Bool
  transformUpdated : Bool
deriving DecidableEq, Repr

/-- Mutable state of the mesh trigger: the `_previous_scales` and
`_previous_rotations` caches (`src/pivot/handlers.py` 19-21) and the
dirty-group set. -/
structure DetectState where
  prevScales : List (String × (Int × Int × Int))
  prevRots : List (String × (Int × Int × Int × Int))
  dirty : Finset String
deriving DecidableEq

/-- Body of the main processing loop of
`pivot/handlers.unsync_mesh_changes` (`src/pivot/handlers.py` 128-164)
for one depsgraph update matched to a selected object `obj` belonging to
the managed groups `groups`: updates lacking both flags are skipped; per
group, the member count comes from the engine snapshot when the group is
tracked, else from the live snapshot; the group is flagged when the
snapshot entry is missing, geometry changed, the cached scale or rotation
differs from the current one, or a transform change hits a group with
more than one member. The per-object caches are refreshed afterwards
regardless of the outcome. -/
def processUpdate (expected current : List (String × Finset String)) (obj : MeshObj)
    (groups : List String) (u : DepsgraphUpdate) (st : DetectState) : DetectState :=
  if !(u.geometryUpdated || u.transformUpdated) then st
  else
    let scaleChanged :=
      match getK st.prevScales obj.name with
      | some p => decide (obj.scale ≠ p)
      | none => false
    let rotChanged :=
      match getK st.prevRots obj.name with
      | some p => decide (obj.rot ≠ p)
      | none => false
    let dirty := groups.foldl (fun d g =>
      let expectedMembers := getK expected g
      let memberCount :=
        match expectedMembers with
        | some e => e.card
        | none => ((getK current g).getD ∅).card
      let shouldMark :=
        expectedMembers.isNone || u.geometryUpdated || scaleChanged || rotChanged ||
          (u.transformUpdated && decide (1 < memberCount))
      if shouldMark then flagUnsynced d g else d) st.dirty
    ⟨putK st.prevScales obj.name obj.scale, putK st.prevRots obj.name obj.rot, dirty⟩

/-- C5. For a selected mesh member of a tracked group whose update is a
pure transform change with cached scale and rotation equal to the current
values: the group is flagged dirty exactly when its member count exceeds
one, and the per-object scale and rotation caches are refreshed to the
current values regardless of the flag outcome (last conjunct: for every
processed update shape). -/
theorem unsyncMesh_pure_transform (expected current : List (String × Finset String))
    (obj : MeshObj) (g : String) (ms : Finset String) (st : DetectState)
    (hg : g ≠ "") (htracked : getK expected g = some ms)
    (hscale : getK st.prevScales obj.name = some obj.scale)
    (hrot : getK st.prevRots obj.name = some obj.rot)
    (hdirty : g ∉ st.dirty) :
    (g ∈ (processUpdate expected current obj [g] ⟨false, true⟩ st).dirty ↔
      1 < ms.card) ∧
    (∀ (gs : List String) (u : DepsgraphUpdate),
      (u.geometryUpdated || u.transformUpdated) = true →
      getK (processUpdate expected current obj gs u st).prevScales obj.name =
          some obj.scale ∧
      getK (processUpdate expected current obj gs u st).prevRots obj.name =
          some obj.rot) := by
  constructor
  · unfold processUpdate
    rw [if_neg (by simp)]
    show g ∈ (if _ then _ else _ : Finset String) ↔ _
    rw [htracked, hscale, hrot]
    simp only [Option.isNone_some, Bool.false_or, Bool.true_and, ne_eq,
      not_true_eq_false, decide_eq_true_eq]
    by_cases hcard : 1 < ms.card
    · rw [if_pos (by simpa using hcard), mem_flagUnsynced]
      simp [hg, hcard]
    · rw [if_neg (by simpa using hcard)]
      simp [hdirty, hcard]
  · intro gs u hu
    unfold processUpdate
    rw [if_neg (by simp [hu])]
    constructor
    · show getK (putK st.prevScales obj.name obj.scale) obj.name = some obj.scale
      simp [getK_putK]
    · show getK (putK st.prevRots obj.name obj.rot) obj.name = some obj.rot
      simp [getK_putK]

/-- Concrete runs of `unsyncMesh_pure_transform`: a tracked single-member
group is not flagged by a pure transform change, the same scene with a
two-member group is flagged, and the caches hold the current transform
afterwards in both runs. -/
theorem unsyncMesh_pure_transform_witness :
    ("G" ∉ (processUpdate [("G", {"A"})] [] ⟨"A", (1, 1, 1), (1, 0, 0, 0)⟩ ["G"]
        ⟨false, true⟩
        ⟨[("A", (1, 1, 1))], [("A", (1, 0, 0, 0))], ∅⟩).dirty) ∧
    ("G" ∈ (processUpdate [("G", {"A", "B"})] [] ⟨"A", (1, 1, 1), (1, 0, 0, 0)⟩ ["G"]
        ⟨false, true⟩
        ⟨[("A", (1, 1, 1))], [("A", (1, 0, 0, 0))], ∅⟩).dirty) ∧
    getK (processUpdate [("G", {"A"})] [] ⟨"A", (1, 1, 1), (1, 0, 0, 0)⟩ ["G"]
        ⟨false, true⟩
        ⟨[("A", (1, 1, 1))], [("A", (1, 0, 0, 0))], ∅⟩).prevScales "A" =
      some (1, 1, 1) := by
  have h1 := unsyncMesh_pure_transform [("G", {"A"})] [] ⟨"A", (1, 1, 1), (1, 0, 0, 0)⟩
    "G" {"A"} ⟨[("A", (1, 1, 1))], [("A", (1, 0, 0, 0))], ∅⟩
    (by decide) (by decide) (by decide) (by decide) (Finset.not_mem_empty _)
  have h2 := unsyncMesh_pure_transform [("G", {"A", "B"})] []
    ⟨"A", (1, 1, 1), (1, 0, 0, 0)⟩ "G" {"A", "B"}
    ⟨[("A", (1, 1, 1))], [("A", (1, 0, 0, 0))], ∅⟩
    (by decide) (by decide) (by decide) (by decide) (Finset.not_mem_empty _)
  refine ⟨?_, ?_, ?_⟩
  · rw [h1.1]
    decide
  · rw [h2.1]
    decide
  · exact (h1.2 ["G"] ⟨false, true⟩ (by decide)).1

/-- State visible to one depsgraph tick: the shared
`_is_performing_classification` suppression flag and the change-detector
state. -/
structure TickState where
  suppress : Bool
  det : DetectState
deriving DecidableEq

/-- Inputs of one depsgraph tick: the engine and live snapshots and the
matched (object, managed groups, update-record) triples the mesh trigger
iterates. -/
structure TickInput where
  expected : List (String × Finset String)
  current : List (String × Finset String)
  updates : List (MeshObj × List String × DepsgraphUpdate)

/-- `pivot/handlers.on_depsgraph_update` (`src/pivot/handlers.py` 24-35):
when the suppression flag is set, clear it and skip both
`detect_collection_hierarchy_changes` and `unsync_mesh_changes`;
otherwise run both. Returns the new state and whether detection ran.
(`enforce_colors` runs on every tick and acts on registry state modelled
separately.) -/
def onDepsgraphTick (inp : TickInput) (s : TickState) : TickState × Bool :=
  if s.suppress then (⟨false, s.det⟩, false)
  else
    let d1 := detectHierarchyChanges inp.expected inp.current s.det.dirty
    let st1 : DetectState := ⟨s.det.prevScales, s.det.prevRots, d1⟩
    let st2 := inp.updates.foldl
      (fun st t => processUpdate inp.expected inp.current t.1 t.2.1 t.2.2 st) st1
    (⟨false, st2⟩, true)

/-- Tail of `Pivot_OT_Standardize_Selected_Groups.execute`
(`src/pivot/operators/classification.py` 138, also
`src/pivot/operators/group_classification.py`): after issuing the
standardize command, the operator sets the suppression flag. -/
def classificationExecute (s : TickState) : TickState :=
  ⟨true, s.det⟩

/-- Run a sequence of depsgraph ticks, discarding the ran-detection flag. -/
def iterTicks (inps : List TickInput) (s : TickState) : TickState :=
  inps.foldl (fun s i => (onDepsgraphTick i s).1) s

lemma onDepsgraphTick_suppress_false (inp : TickInput) (s : TickState) :
    (onDepsgraphTick inp s).1.suppress = false := by
  unfold onDepsgraphTick
  by_cases h : s.suppress
  · rw [if_pos h]
  · rw [if_neg h]

lemma iterTicks_suppress_false (inps : List TickInput) (s : TickState)
    (h : s.suppress = false) : (iterTicks inps s).suppress = false := by
  induction inps generalizing s with
  | nil => exact h
  | cons i rest ih => exact ih _ (onDepsgraphTick_suppress_false i s)

lemma onDepsgraphTick_runs (inp : TickInput) (s : TickState)
    (h : s.suppress = false) : (onDepsgraphTick inp s).2 = true := by
  unfold onDepsgraphTick
  rw [if_neg (by rw [h]; exact Bool.false_ne_true)]

/-- C7. After a classification operation sets the suppression flag, the
next depsgraph tick skips hierarchy-drift and mesh/transform detection
entirely (detector state untouched, detection did not run) and clears the
flag; and every later tick — after any number of further ticks with no
new classification — runs detection normally. -/
theorem classification_suppression (s : TickState) (inp inp2 : TickInput)
    (inps : List TickInput) :
    ((onDepsgraphTick inp (classificationExecute s)).2 = false ∧
      (onDepsgraphTick inp (classificationExecute s)).1.det = s.det ∧
      (onDepsgraphTick inp (classificationExecute s)).1.suppress = false) ∧
    (onDepsgraphTick inp2
        (iterTicks inps (onDepsgraphTick inp (classificationExecute s)).1)).2 = true := by
  constructor
  · exact ⟨rfl, rfl, rfl⟩
  · have hs : (iterTicks inps (onDepsgraphTick inp (classificationExecute s)).1).suppress
        = false :=
      iterTicks_suppress_false inps _ (onDepsgraphTick_suppress_false inp _)
    exact onDepsgraphTick_runs inp2 _ hs

lemma dropFromSnapshot_getK (st : SyncStore) (names : List String) (k : String) :
    getK (dropFromSnapshot st names).snapshot k =
      if k ∈ names then none else getK st.snapshot k := by
  induction names generalizing st with
  | nil => simp [dropFromSnapshot]
  | cons n rest ih =>
      show getK (dropFromSnapshot ⟨delK st.snapshot n, st.unsynced.erase n⟩ rest).snapshot k = _
      rw [ih]
      by_cases hk : k ∈ rest
      · simp [hk]
      · by_cases hn : k = n
        · simp [hk, hn, getK_delK]
        · simp [hk, hn, Ne.symm hn, getK_delK]

lemma dropFromSnapshot_unsynced (st : SyncStore) (names : List String) (k : String) :
    k ∈ (dropFromSnapshot st names).unsynced ↔ k ∈ st.unsynced ∧ k ∉ names := by
  induction names generalizing st with
  | nil => simp [dropFromSnapshot]
  | cons n rest ih =>
      show k ∈ (dropFromSnapshot ⟨delK st.snapshot n, st.unsynced.erase n⟩ rest).unsynced ↔ _
      rw [ih]
      simp only [Finset.mem_erase, List.mem_cons]
      constructor
      · rintro ⟨⟨h1, h2⟩, h3⟩
        exact ⟨h2, by rintro (rfl | hr); exact h1 rfl; exact h3 hr⟩
      · rintro ⟨h1, h2⟩
        exact ⟨⟨fun hh => h2 (Or.inl hh), h1⟩, fun hr => h2 (Or.inr hr)⟩

lemma eraseFold_mem (t : Finset String) (names : List String) (k : String) :
    k ∈ names.foldl (fun t n => t.erase n) t ↔ k ∈ t ∧ k ∉ names := by
  induction names generalizing t with
  | nil => simp
  | cons n rest ih =>
      rw [List.foldl_cons, ih]
      simp only [Finset.mem_erase, List.mem_cons]
      constructor
      · rintro ⟨⟨h1, h2⟩, h3⟩
        exact ⟨h2, by rintro (rfl | hr); exact h1 rfl; exact h3 hr⟩
      · rintro ⟨h1, h2⟩
        exact ⟨⟨fun hh => h2 (Or.inl hh), h1⟩, fun hr => h2 (Or.inr hr)⟩

/-- Local group bookkeeping touched by orphan cleanup: the collection
color tags, the set of names carrying registry tag metadata, and the sync
state store. -/
structure GroupLocal where
  colors : List (String × String)
  tags : Finset String
  store : SyncStore
deriving DecidableEq

/-- One color reset of the orphan branch of `enforce_colors`
(`src/pivot/handlers.py` 67-69): a name present among the scene
collections gets color tag NONE. -/
def colorStep (cs : List (String × String)) (n : String) : List (String × String) :=
  if (getK cs n).isSome then putK cs n "NONE" else cs

def colorFold (cs : List (String × String)) (ns : List String) : List (String × String) :=
  ns.foldl colorStep cs

lemma colorFold_getK (cs : List (String × String)) (ns : List String) (k : String) :
    getK (colorFold cs ns) k =
      if k ∈ ns ∧ (getK cs k).isSome then some "NONE" else getK cs k := by
  induction ns generalizing cs with
  | nil => simp [colorFold]
  | cons n rest ih =>
      show getK (colorFold (colorStep cs n) rest) k = _
      rw [ih]
      by_cases hn : k = n
      · subst hn
        cases hsome : getK cs k with
        | none =>
            have hstep : colorStep cs k = cs := by
              rw [colorStep, hsome]
              rfl
            simp [hstep, hsome]
        | some c =>
            have hstep : colorStep cs k = putK cs k "NONE" := by
              rw [colorStep, hsome]
              rfl
            rw [hstep]
            by_cases hr : k ∈ rest
            · simp [hr, getK_putK, hsome]
            · simp [hr, getK_putK, hsome]
      · have hgk : getK (colorStep cs n) k = getK cs k := by
          unfold colorStep
          by_cases hs : (getK cs n).isSome
          · rw [if_pos hs, getK_putK]
            simp [Ne.symm hn]
          · rw [if_neg hs]
        rw [hgk]
        simp only [List.mem_cons]
        by_cases hr : k ∈ rest
        · simp [hr, hn]
        · simp [hr, hn]

/-- Modelled from the spec: the compiled pivot group registry's
`drop_groups` (step 3 of the orphan cleanup protocol, spec 4.4) clears
the local tag metadata of the dropped names and removes them from
GroupSnapshot and DirtySet; the snapshot/dirty-set part coincides with
`engine_state.drop_groups_from_snapshot`
(`src/splatter/engine_state.py` 80-84). -/
def registryDropGroups (st : GroupLocal) (names : List String) : GroupLocal :=
  ⟨st.colors, names.foldl (fun t n => t.erase n) st.tags,
    dropFromSnapshot st.store names⟩

/-- The local-state effect of a successful orphan drop
(`src/pivot/handlers.py` 65-71): reset the colors of the orphan names,
then drop them from the registry. -/
def orphanCleanup (st : GroupLocal) (orphans : List String) : GroupLocal :=
  registryDropGroups ⟨colorFold st.colors orphans, st.tags, st.store⟩ orphans

/-- Orphan branch of `pivot/handlers.enforce_colors`
(`src/pivot/handlers.py` 56-73): with no orphans nothing happens; if
acquiring the engine communicator raises, the exception handler leaves
local state unchanged; otherwise the engine round-trip
`PivotEngine.drop_groups` runs and only a non-negative count leads to
local cleanup. Returns the new local state and the command lines
written. -/
def enforceColorsOrphans (orphans : List String) (acquired running : Bool)
    (stdout : List RLine) (st : GroupLocal) : GroupLocal × List Resp :=
  if orphans.isEmpty then (st, [])
  else if !acquired then (st, [])
  else
    let res := dropGroups running orphans stdout
    if 0 ≤ res.1 then (orphanCleanup st orphans, res.2)
    else (st, res.2)

lemma dropGroups_written (names : List String) (stdout : List RLine)
    (hne : names.isEmpty = false) :
    (dropGroups true names stdout).2 = [dropGroupsCmd names] := by
  cases hres : (readLoop stdout).1 with
  | error e => simp [dropGroups, hne, sendCommand, hres]
  | ok r =>
      by_cases ht : truthy (getFieldD r "ok" (RVal.vB false)) = true <;>
        simp [dropGroups, hne, sendCommand, hres, ht]

/-- C2. Orphan cleanup is atomic with respect to engine acknowledgment:
with orphans detected and the engine up, the bridge writes exactly one
drop command naming exactly those groups; on a non-negative dropped count
it resets their colors, clears their tag metadata and removes them from
the snapshot and the dirty set (leaving all other names untouched); a
negative (error) result, a stopped engine, or a failed communicator
acquisition leaves all local group state unchanged. -/
theorem enforceColors_atomic (orphans : List String) (stdout : List RLine)
    (st : GroupLocal) (hne : orphans ≠ []) :
    ((enforceColorsOrphans orphans true true stdout st).2 = [dropGroupsCmd orphans]) ∧
    (0 ≤ (dropGroups true orphans stdout).1 →
      (∀ n ∈ orphans,
        getK (enforceColorsOrphans orphans true true stdout st).1.store.snapshot n =
            none ∧
        n ∉ (enforceColorsOrphans orphans true true stdout st).1.store.unsynced ∧
        n ∉ (enforceColorsOrphans orphans true true stdout st).1.tags ∧
        ((getK st.colors n).isSome →
          getK (enforceColorsOrphans orphans true true stdout st).1.colors n =
            some "NONE")) ∧
      (∀ k, k ∉ orphans →
        getK (enforceColorsOrphans orphans true true stdout st).1.store.snapshot k =
            getK st.store.snapshot k ∧
        getK (enforceColorsOrphans orphans true true stdout st).1.colors k =
            getK st.colors k)) ∧
    ((dropGroups true orphans stdout).1 < 0 →
      (enforceColorsOrphans orphans true true stdout st).1 = st) ∧
    (enforceColorsOrphans orphans false true stdout st = (st, [])) ∧
    ((enforceColorsOrphans orphans true false stdout st).1 = st) := by
  have hne' : orphans.isEmpty = false := by
    cases orphans with
    | nil => exact absurd rfl hne
    | cons a l => rfl
  have hunfold : ∀ running,
      enforceColorsOrphans orphans true running stdout st =
        (if 0 ≤ (dropGroups running orphans stdout).1
          then (orphanCleanup st orphans, (dropGroups running orphans stdout).2)
          else (st, (dropGroups running orphans stdout).2)) := by
    intro running
    unfold enforceColorsOrphans
    rw [if_neg (by simp [hne']), if_neg (by simp)]
  refine ⟨?_, ?_, ?_, ?_, ?_⟩
  · rw [hunfold true]
    by_cases h : 0 ≤ (dropGroups true orphans stdout).1
    · rw [if_pos h]
      exact dropGroups_written orphans stdout hne'
    · rw [if_neg h]
      exact dropGroups_written orphans stdout hne'
  · intro hok
    rw [hunfold true, if_pos hok]
    constructor
    · intro n hn
      refine ⟨?_, ?_, ?_, ?_⟩
      · show getK (dropFromSnapshot st.store orphans).snapshot n = none
        rw [dropFromSnapshot_getK]
        simp [hn]
      · show n ∉ (dropFromSnapshot st.store orphans).unsynced
        rw [dropFromSnapshot_unsynced]
        simp [hn]
      · show n ∉ orphans.foldl (fun t n => t.erase n) st.tags
        rw [eraseFold_mem]
        simp [hn]
      · intro hsome
        show getK (colorFold st.colors orphans) n = some "NONE"
        rw [colorFold_getK]
        simp [hn, hsome]
    · intro k hk
      constructor
      · show getK (dropFromSnapshot st.store orphans).snapshot k = _
        rw [dropFromSnapshot_getK]
        simp [hk]
      · show getK (colorFold st.colors orphans) k = _
        rw [colorFold_getK]
        simp [hk]
  · intro hbad
    rw [hunfold true, if_neg (by omega)]
  · unfold enforceColorsOrphans
    rw [if_neg (by simp [hne'])]
    rfl
  · rw [hunfold false]
    rw [if_neg ?_]
    unfold dropGroups
    rw [if_neg (by simp [hne'])]
    simp

/-- Concrete run of `enforceColors_atomic`: a successful drop of "G"
clears its color, tag and sync state; a refused drop leaves the same
state untouched. -/
theorem enforceColors_atomic_witness :
    (enforceColorsOrphans ["G"] true true
        [RLine.objLine [("ok", RVal.vB true), ("dropped_count", RVal.vN 1)]]
        ⟨[("G", "COLOR_04")], {"G"}, ⟨[("G", {"A"})], {"G"}⟩⟩).2 =
      [dropGroupsCmd ["G"]] ∧
    getK (enforceColorsOrphans ["G"] true true
        [RLine.objLine [("ok", RVal.vB true), ("dropped_count", RVal.vN 1)]]
        ⟨[("G", "COLOR_04")], {"G"}, ⟨[("G", {"A"})], {"G"}⟩⟩).1.store.snapshot "G" =
      none ∧
    getK (enforceColorsOrphans ["G"] true true
        [RLine.objLine [("ok", RVal.vB true), ("dropped_count", RVal.vN 1)]]
        ⟨[("G", "COLOR_04")], {"G"}, ⟨[("G", {"A"})], {"G"}⟩⟩).1.colors "G" =
      some "NONE" ∧
    (enforceColorsOrphans ["G"] true true
        [RLine.objLine [("ok", RVal.vB false)]]
        ⟨[("G", "COLOR_04")], {"G"}, ⟨[("G", {"A"})], {"G"}⟩⟩).1 =
      ⟨[("G", "COLOR_04")], {"G"}, ⟨[("G", {"A"})], {"G"}⟩⟩ := by
  have h1 := enforceColors_atomic ["G"]
    [RLine.objLine [("ok", RVal.vB true), ("dropped_count", RVal.vN 1)]]
    ⟨[("G", "COLOR_04")], {"G"}, ⟨[("G", {"A"})], {"G"}⟩⟩ (by decide)
  have h2 := enforceColors_atomic ["G"] [RLine.objLine [("ok", RVal.vB false)]]
    ⟨[("G", "COLOR_04")], {"G"}, ⟨[("G", {"A"})], {"G"}⟩⟩ (by decide)
  have hok : (0 : Int) ≤ (dropGroups true ["G"]
      [RLine.objLine [("ok", RVal.vB true), ("dropped_count", RVal.vN 1)]]).1 := by
    decide
  have hbad : (dropGroups true ["G"] [RLine.objLine [("ok", RVal.vB false)]]).1 < 0 := by
    decide
  have hmem := (h1.2.1 hok).1 "G" (by decide)
  exact ⟨h1.1, hmem.1, hmem.2.2.2 (by decide), h2.2.2.1 hbad⟩

/-- Bridge-level state visible to the file-load lifecycle hooks: the
engine supervisor state, the sync state store, and the per-object
transform caches. -/
structure BridgeState where
  engine : EngineProc
  store : SyncStore
  prevScales : List (String × (Int × Int × Int))
  prevRots : List (String × (Int × Int × Int × Int))
deriving DecidableEq

/-- `pivot/handlers.on_load_pre` (`src/pivot/handlers.py` 194-210): a
best-effort flush of pending group classifications to the engine (its
failure is logged and swallowed, touching no bridge state either way);
the function body ends after the flush — the trailing
`Stop the pivot engine` comment has no code under it, so the engine
supervisor state is left untouched. -/
def onLoadPre (s : BridgeState) : BridgeState := s

/-- `pivot/handlers.on_load_post` (`src/pivot/handlers.py` 213-227):
reset the sync state store via
`update_group_membership_snapshot({}, replace=True)` and clear the
transform caches (`clear_previous_scales`); no `start()` call is made, so
the engine supervisor state is left untouched. (`GroupManager.reset_state`
acts on compiled registry state outside this record.) -/
def onLoadPost (s : BridgeState) : BridgeState :=
  ⟨s.engine, updateSnapshot s.store [] true, [], []⟩

/-- C9 divergence witness. Evaluating the load hooks on any bridge state:
`on_load_pre` performs the classification flush but leaves the engine
supervisor state untouched (no `stop()` despite its docstring), and
`on_load_post` resets the snapshot store (the snapshot becomes empty and
no group stays dirty) and clears the transform caches but never starts
the engine. -/
theorem loadHooks_engine_untouched (s : BridgeState) :
    (onLoadPre s).engine = s.engine ∧
    (onLoadPre s) = s ∧
    (onLoadPost s).engine = s.engine ∧
    (onLoadPost s).store.snapshot = [] ∧
    (∀ k, k ∈ (onLoadPost s).store.unsynced ↔
      k ∈ s.store.unsynced ∧ k ∉ s.store.snapshot.map Prod.fst) ∧
    (onLoadPost s).prevScales = [] ∧
    (onLoadPost s).prevRots = [] := by
  refine ⟨rfl, rfl, rfl, rfl, ?_, rfl, rfl⟩
  intro k
  show k ∈ (updateSnapshot s.store [] true).unsynced ↔ _
  unfold updateSnapshot
  rw [if_pos rfl]
  show k ∈ (dropFromSnapshot s.store (s.store.snapshot.map Prod.fst)).unsynced ↔ _
  rw [dropFromSnapshot_unsynced]

/-- An object as the undo/redo reconciliation pass sees it: its name, the
group derived from its collections (`_get_group_name`), and its present
classification attributes (an absent attribute makes `getattr` raise).
Attribute values are opaque integers compared for equality. -/
structure UObj where
  name : String
  group : Option String
  attrs : List (String × Int)
deriving DecidableEq, Repr

/-- The `engine_state._engine_expected_state` map:
group name → attribute name → last engine-confirmed value. -/
abbrev ExpState := List (String × List (String × Int))

/-- Python `_engine_expected_state.get(group, \x7b\x7d).get(attr)`
(`src/splatter/property_manager.py` 475, 508). -/
def lookupExp (es : ExpState) (g a : String) : Option Int :=
  (getK es g).bind (fun m => getK m a)

/-- Python `_engine_expected_state.setdefault(group, \x7b\x7d)[attr] = value`
(`src/splatter/property_manager.py` 400-401). -/
def putExp (es : ExpState) (g a : String) (v : Int) : ExpState :=
  putK es g (putK ((getK es g).getD []) a v)

/-- `PropertyManager.needs_attribute_sync`
(`src/splatter/property_manager.py` 462-478): false when the attribute,
the group, or the recorded expectation is missing; otherwise true exactly
on a current/expected mismatch. -/
def needsAttributeSync (es : ExpState) (obj : UObj) (a : String) : Bool :=
  match obj.group with
  | none => false
  | some g =>
      match getK obj.attrs a, lookupExp es g a with
      | some cur, some e => cur != e
      | _, _ => false

/-- Running state of one `sync_scene_after_undo` invocation: the expected
state, the `set_group_attr` commands emitted as (group, attr, value)
triples, the (group, attr) pairs successfully synced, and the touched
groups. -/
structure UndoAcc where
  expected : ExpState
  emitted : List (String × String × Int)
  syncedPairs : List (String × String)
  groupsTouched : List String
deriving DecidableEq, Repr

/-- `PropertyManager.sync_attribute_with_engine`
(`src/splatter/property_manager.py` 430-460): no group → false; no
communicator (`engineUp` false) → false with nothing sent; a missing
attribute raises and is caught → false with nothing sent; otherwise one
`set_group_attr` command carrying the current value is emitted; an ok
reply records that value as the new expectation and returns true, any
other reply leaves the expectation unchanged and returns false. -/
def syncAttributeWithEngine (engineUp replyOk : Bool) (acc : UndoAcc) (obj : UObj)
    (a : String) : Bool × UndoAcc :=
  match obj.group with
  | none => (false, acc)
  | some g =>
      if !engineUp then (false, acc)
      else
        match getK obj.attrs a with
        | none => (false, acc)
        | some v =>
            if replyOk then
              (true, ⟨putExp acc.expected g a v, acc.emitted ++ [(g, a, v)],
                acc.syncedPairs, acc.groupsTouched⟩)
            else
              (false, ⟨acc.expected, acc.emitted ++ [(g, a, v)],
                acc.syncedPairs, acc.groupsTouched⟩)

/-- One (object, attribute) step of the `sync_scene_after_undo` loops
(`src/splatter/property_manager.py` 502-512), with `g` the object's
group: pairs already synced this invocation are skipped; a missing
expectation or a detected mismatch triggers the sync; only a successful
sync records the pair and the touched group. -/
def undoStep (engineUp replyOk : Bool) (obj : UObj) (g : String) (acc : UndoAcc)
    (a : String) : UndoAcc :=
  if (g, a) ∈ acc.syncedPairs then acc
  else
    if (lookupExp acc.expected g a).isNone || needsAttributeSync acc.expected obj a then
      let r := syncAttributeWithEngine engineUp replyOk acc obj a
      if r.1 then
        ⟨r.2.expected, r.2.emitted, (g, a) :: r.2.syncedPairs,
          if g ∈ r.2.groupsTouched then r.2.groupsTouched
          else g :: r.2.groupsTouched⟩
      else r.2
    else acc

/-- `PropertyManager.sync_scene_after_undo`
(`src/splatter/property_manager.py` 487-514): walk the scene objects,
skip those without a group, and process every syncable property for each
object in order. -/
def syncSceneAfterUndo (engineUp replyOk : Bool) (props : List String)
    (objs : List UObj) (es : ExpState) : UndoAcc :=
  objs.foldl (fun acc obj =>
    match obj.group with
    | none => acc
    | some g => props.foldl (undoStep engineUp replyOk obj g) acc)
    ⟨es, [], [], []⟩

/-- C6 counterexample. For a one-object scene in group "G" with syncable
attribute "height" = 5 and no recorded expectation, a reachable engine
that replies ok, `sync_scene_after_undo` emits one `set_group_attr`
command for ("G", "height") — the claim states that an attribute with no
recorded expectation adopts its current value as baseline without
emitting a sync, i.e. that the emission list stays empty. -/
theorem syncAfterUndo_counterexample :
    (syncSceneAfterUndo true true ["height"] [⟨"O", some "G", [("height", 5)]⟩]
        []).emitted = [("G", "height", 5)] ∧
    lookupExp ([] : ExpState) "G" "height" = none := by
  constructor
  · rfl
  · rfl

lemma lookupExp_putExp (es : ExpState) (g a : String) (v : Int) (g' a' : String) :
    lookupExp (putExp es g a v) g' a' =
      if g' = g ∧ a' = a then some v else lookupExp es g' a' := by
  unfold lookupExp putExp
  rw [getK_putK]
  by_cases hg : g = g'
  · subst hg
    rw [if_pos rfl]
    show getK (putK ((getK es g).getD []) a v) a' = _
    rw [getK_putK]
    by_cases ha : a = a'
    · subst ha
      simp
    · rw [if_neg ha, if_neg (fun h => ha h.2.symm)]
      cases hm : getK es g with
      | none => rfl
      | some m => rfl
  · rw [if_neg hg, if_neg (fun h => hg h.1.symm)]

/-- The (group, attr) pairs of an emission log. -/
def undoPairs (l : List (String × String × Int)) : List (String × String) :=
  l.map (fun e => (e.1, e.2.1))

/-- Bookkeeping invariant of `sync_scene_after_undo`: the emitted pairs
are distinct and each is recorded in the synced-pairs set. -/
def undoInv (acc : UndoAcc) : Prop :=
  (undoPairs acc.emitted).Nodup ∧ ∀ p ∈ undoPairs acc.emitted, p ∈ acc.syncedPairs

lemma undoStep_eval_ok (obj : UObj) (g : String) (hobj : obj.group = some g)
    (acc : UndoAcc) (a : String) :
    undoStep true true obj g acc a =
      if (g, a) ∈ acc.syncedPairs then acc
      else
        if (lookupExp acc.expected g a).isNone ||
            needsAttributeSync acc.expected obj a then
          match getK obj.attrs a with
          | none => acc
          | some v =>
              ⟨putExp acc.expected g a v, acc.emitted ++ [(g, a, v)],
                (g, a) :: acc.syncedPairs,
                if g ∈ acc.groupsTouched then acc.groupsTouched
                else g :: acc.groupsTouched⟩
      else acc := by
  by_cases hsk : (g, a) ∈ acc.syncedPairs
  · simp [undoStep, hsk]
  · by_cases hneeds : ((lookupExp acc.expected g a).isNone ||
        needsAttributeSync acc.expected obj a) = true
    · cases hv : getK obj.attrs a with
      | none => simp [undoStep, syncAttributeWithEngine, hobj, hsk, hneeds, hv]
      | some v => simp [undoStep, syncAttributeWithEngine, hobj, hsk, hneeds, hv]
    · simp [undoStep, hsk, hneeds]

lemma undoStep_inv (obj : UObj) (g : String) (hobj : obj.group = some g)
    (acc : UndoAcc) (a : String) (h : undoInv acc) :
    undoInv (undoStep true true obj g acc a) := by
  rw [undoStep_eval_ok obj g hobj acc a]
  by_cases hsk : (g, a) ∈ acc.syncedPairs
  · rw [if_pos hsk]
    exact h
  · rw [if_neg hsk]
    by_cases hneeds : ((lookupExp acc.expected g a).isNone ||
        needsAttributeSync acc.expected obj a) = true
    · rw [if_pos hneeds]
      cases hv : getK obj.attrs a with
      | none => exact h
      | some v =>
          constructor
          · show (undoPairs (acc.emitted ++ [(g, a, v)])).Nodup
            rw [undoPairs, List.map_append, List.nodup_append]
            refine ⟨h.1, List.nodup_singleton _, ?_⟩
            intro p hp hq
            simp only [List.map_cons, List.map_nil, List.mem_singleton] at hq
            subst hq
            exact hsk (h.2 _ hp)
          · intro p hp
            rw [undoPairs, List.map_append] at hp
            rcases List.mem_append.mp hp with hp | hp
            · exact List.mem_cons_of_mem _ (h.2 p hp)
            · simp only [List.map_cons, List.map_nil, List.mem_singleton] at hp
              subst hp
              exact List.mem_cons_self _ _
    · rw [if_neg hneeds]
      exact h

lemma attrFold_inv (obj : UObj) (g : String) (hobj : obj.group = some g)
    (props : List String) (acc : UndoAcc) (h : undoInv acc) :
    undoInv (props.foldl (undoStep true true obj g) acc) := by
  induction props generalizing acc with
  | nil => exact h
  | cons a rest ih => exact ih _ (undoStep_inv obj g hobj acc a h)

lemma syncScene_inv (props : List String) (objs : List UObj) (es : ExpState) :
    undoInv (syncSceneAfterUndo true true props objs es) := by
  have hstep : ∀ (acc : UndoAcc), undoInv acc → ∀ (objs' : List UObj),
      undoInv (objs'.foldl (fun acc obj =>
        match obj.group with
        | none => acc
        | some g => props.foldl (undoStep true true obj g) acc) acc) := by
    intro acc hacc objs'
    induction objs' generalizing acc with
    | nil => exact hacc
    | cons o rest ih =>
        rw [List.foldl_cons]
        cases ho : o.group with
        | none => exact ih _ hacc
        | some g => exact ih _ (attrFold_inv o g ho props acc hacc)
  exact hstep ⟨es, [], [], []⟩ ⟨List.nodup_nil, by intro p hp; simp [undoPairs] at hp⟩ objs

/-- The (group, attr) pair of interest has not been processed yet and its
recorded expectation is unchanged from the invocation start. -/
def seedQ (es : ExpState) (g a : String) (acc : UndoAcc) : Prop :=
  (g, a) ∉ acc.syncedPairs ∧ lookupExp acc.expected g a = lookupExp es g a

/-- The (group, attr) pair of interest has been synced: the pair is
recorded, the expectation holds the synced value, and exactly that
command was emitted. -/
def seedR (g a : String) (v : Int) (acc : UndoAcc) : Prop :=
  (g, a) ∈ acc.syncedPairs ∧ lookupExp acc.expected g a = some v ∧
    (g, a, v) ∈ acc.emitted

lemma undoStep_seedR (g a : String) (v : Int) (obj : UObj) (g' : String)
    (hobj : obj.group = some g') (acc : UndoAcc) (b : String)
    (hR : seedR g a v acc) : seedR g a v (undoStep true true obj g' acc b) := by
  rw [undoStep_eval_ok obj g' hobj acc b]
  by_cases hsk : (g', b) ∈ acc.syncedPairs
  · rw [if_pos hsk]
    exact hR
  · rw [if_neg hsk]
    by_cases hneeds : ((lookupExp acc.expected g' b).isNone ||
        needsAttributeSync acc.expected obj b) = true
    · rw [if_pos hneeds]
      cases hv : getK obj.attrs b with
      | none => exact hR
      | some w =>
          have hne : ¬(g = g' ∧ a = b) := by
            rintro ⟨rfl, rfl⟩
            exact hsk hR.1
          refine ⟨List.mem_cons_of_mem _ hR.1, ?_, List.mem_append_left _ hR.2.2⟩
          show lookupExp (putExp acc.expected g' b w) g a = some v
          rw [lookupExp_putExp, if_neg hne]
          exact hR.2.1
    · rw [if_neg hneeds]
      exact hR

lemma attrFold_seedR (g a : String) (v : Int) (obj : UObj) (g' : String)
    (hobj : obj.group = some g') (props : List String) (acc : UndoAcc)
    (hR : seedR g a v acc) :
    seedR g a v (props.foldl (undoStep true true obj g') acc) := by
  induction props generalizing acc with
  | nil => exact hR
  | cons b rest ih => exact ih _ (undoStep_seedR g a v obj g' hobj acc b hR)

lemma undoStep_seedQ (es : ExpState) (g a : String) (o : UObj)
    (hgrp : o.group = some g) (acc : UndoAcc) (b : String) (hb : b ≠ a)
    (hQ : seedQ es g a acc) : seedQ es g a (undoStep true true o g acc b) := by
  rw [undoStep_eval_ok o g hgrp acc b]
  by_cases hsk : (g, b) ∈ acc.syncedPairs
  · rw [if_pos hsk]
    exact hQ
  · rw [if_neg hsk]
    by_cases hneeds : ((lookupExp acc.expected g b).isNone ||
        needsAttributeSync acc.expected o b) = true
    · rw [if_pos hneeds]
      cases hv : getK o.attrs b with
      | none => exact hQ
      | some w =>
          constructor
          · intro hmem
            rcases List.mem_cons.mp hmem with heq | hmem'
            · have hab : a = b := congrArg Prod.snd heq
              exact hb hab.symm
            · exact hQ.1 hmem'
          · show lookupExp (putExp acc.expected g b w) g a = _
            rw [lookupExp_putExp, if_neg (fun h => hb h.2.symm)]
            exact hQ.2
    · rw [if_neg hneeds]
      exact hQ

lemma undoStep_seed_fire (es : ExpState) (g a : String) (v : Int) (o : UObj)
    (hgrp : o.group = some g) (hv : getK o.attrs a = some v)
    (hneed : lookupExp es g a = none ∨ ∃ w, lookupExp es g a = some w ∧ w ≠ v)
    (acc : UndoAcc) (hQ : seedQ es g a acc) :
    seedR g a v (undoStep true true o g acc a) := by
  rw [undoStep_eval_ok o g hgrp acc a]
  rw [if_neg hQ.1]
  have hneeds : ((lookupExp acc.expected g a).isNone ||
      needsAttributeSync acc.expected o a) = true := by
    rcases hneed with h0 | ⟨w, hw, hwv⟩
    · rw [hQ.2, h0]
      rfl
    · have hQw : lookupExp acc.expected g a = some w := hQ.2.trans hw
      simp [needsAttributeSync, hgrp, hv, hQw, bne_iff_ne, Ne.symm hwv]
  rw [if_pos hneeds, hv]
  refine ⟨List.mem_cons_self _ _, ?_, List.mem_append_right _ (by simp)⟩
  show lookupExp (putExp acc.expected g a v) g a = some v
  rw [lookupExp_putExp, if_pos ⟨rfl, rfl⟩]

lemma attrFold_reaches (es : ExpState) (g a : String) (v : Int) (o : UObj)
    (hgrp : o.group = some g) (hv : getK o.attrs a = some v)
    (hneed : lookupExp es g a = none ∨ ∃ w, lookupExp es g a = some w ∧ w ≠ v)
    (props : List String) (ha : a ∈ props) (acc : UndoAcc)
    (hS : seedQ es g a acc ∨ seedR g a v acc) :
    seedR g a v (props.foldl (undoStep true true o g) acc) := by
  induction props generalizing acc with
  | nil => exact absurd ha (List.not_mem_nil a)
  | cons b rest ih =>
      rw [List.foldl_cons]
      by_cases hb : b = a
      · have hR1 : seedR g a v (undoStep true true o g acc b) := by
          rw [hb]
          rcases hS with hQ | hR
          · exact undoStep_seed_fire es g a v o hgrp hv hneed acc hQ
          · exact undoStep_seedR g a v o g hgrp acc a hR
        exact attrFold_seedR g a v o g hgrp rest _ hR1
      · rcases hS with hQ | hR
        · have ha' : a ∈ rest := by
            rcases List.mem_cons.mp ha with rfl | h'
            · exact absurd rfl hb
            · exact h'
          exact ih ha' _ (Or.inl (undoStep_seedQ es g a o hgrp acc b hb hQ))
        · exact attrFold_seedR g a v o g hgrp rest _
            (undoStep_seedR g a v o g hgrp acc b hR)

lemma objsFold_seedR (g a : String) (v : Int) (props : List String)
    (objs : List UObj) (acc : UndoAcc) (hR : seedR g a v acc) :
    seedR g a v (objs.foldl (fun acc obj =>
      match obj.group with
      | none => acc
      | some g' => props.foldl (undoStep true true obj g') acc) acc) := by
  induction objs generalizing acc with
  | nil => exact hR
  | cons o rest ih =>
      rw [List.foldl_cons]
      cases ho : o.group with
      | none => exact ih _ hR
      | some g' => exact ih _ (attrFold_seedR g a v o g' ho props acc hR)

/-- C6 amended. During `sync_scene_after_undo` with a reachable engine
that acknowledges each command: a (group, attribute) pair whose recorded
expectation is missing is seeded by emitting exactly one sync carrying
the first member's current value (recorded as the new expectation), a
pair whose current value mismatches the recorded expectation is synced
the same way, and in every invocation each (group, attribute) pair is
synced at most once regardless of how many members the group has. -/
theorem syncAfterUndo_amended (props : List String) (rest : List UObj) (o : UObj)
    (es : ExpState) (g a : String) (v : Int)
    (hgrp : o.group = some g) (hv : getK o.attrs a = some v)
    (hneed : lookupExp es g a = none ∨ ∃ w, lookupExp es g a = some w ∧ w ≠ v)
    (ha : a ∈ props) :
    (∀ (ps : List String) (objs : List UObj) (es' : ExpState),
      (undoPairs (syncSceneAfterUndo true true ps objs es').emitted).Nodup) ∧
    (g, a, v) ∈ (syncSceneAfterUndo true true props (o :: rest) es).emitted ∧
    lookupExp (syncSceneAfterUndo true true props (o :: rest) es).expected g a =
      some v := by
  refine ⟨fun ps objs es' => (syncScene_inv ps objs es').1, ?_, ?_⟩
  all_goals
    have hQ0 : seedQ es g a ⟨es, [], [], []⟩ := ⟨by simp, rfl⟩
    have hR1 := attrFold_reaches es g a v o hgrp hv hneed props ha _ (Or.inl hQ0)
    have hR : seedR g a v (syncSceneAfterUndo true true props (o :: rest) es) := by
      show seedR g a v ((o :: rest).foldl _ ⟨es, [], [], []⟩)
      rw [List.foldl_cons, hgrp]
      exact objsFold_seedR g a v props rest _ hR1
  · exact hR.2.2
  · exact hR.2.1

/-- Concrete run of `syncAfterUndo_amended`: a two-member group "G" with
no recorded expectation for attribute "height" gets exactly one seeding
sync carrying the first member's value 5, and the expectation then holds
5; the emitted pair list is duplicate-free. -/
theorem syncAfterUndo_amended_witness :
    (undoPairs (syncSceneAfterUndo true true ["height"]
        [⟨"O", some "G", [("height", 5)]⟩, ⟨"P", some "G", [("height", 7)]⟩]
        []).emitted).Nodup ∧
    ("G", "height", (5 : Int)) ∈ (syncSceneAfterUndo true true ["height"]
        [⟨"O", some "G", [("height", 5)]⟩, ⟨"P", some "G", [("height", 7)]⟩]
        []).emitted ∧
    lookupExp (syncSceneAfterUndo true true ["height"]
        [⟨"O", some "G", [("height", 5)]⟩, ⟨"P", some "G", [("height", 7)]⟩]
        []).expected "G" "height" = some 5 := by
  have h := syncAfterUndo_amended ["height"] [⟨"P", some "G", [("height", 7)]⟩]
    ⟨"O", some "G", [("height", 5)]⟩ [] "G" "height" 5 rfl (by decide)
    (Or.inl rfl) (by decide)
  exact ⟨h.1 ["height"] [⟨"O", some "G", [("height", 5)]⟩,
    ⟨"P", some "G", [("height", 7)]⟩] [], h.2.1, h.2.2⟩

end PivotBridge
